import Mathlib

/-!
Shallow embedding of the core of a minimal asynchronous task runtime
(submission queue with worker poll steps, join handles, a timer registry
with sleep futures, and a cooperative cancellation token), together with
theorems settling the specified properties.

Machine integers of the source are modelled as `Nat`; wakers are kept
abstract as a type parameter `W`; mutexed `Option` slots become `Option`
fields with explicit state passing; invoked wakers are returned as lists.
-/

namespace RustRuntime

/-- Outcome of polling a future one step (`std::task::Poll`). -/
inductive Poll (α : Type u) where
  | ready (a : α)
  | pending
  deriving Repr, DecidableEq

/-- Error kind `JoinError` from `join_handle.rs`: why a join completed without a value. -/
inductive JoinError where
  | cancelled
  | panicked
  deriving Repr, DecidableEq

/-- Shared state `JoinState<T>` from `join_handle.rs`: the shared state behind a
`JoinHandle`/`JoinNotifier` pair — a result slot and a waker slot,
each a mutexed `Option`. -/
structure JoinState (T : Type u) (W : Type v) where
  result : Option (Except JoinError T)
  waker : Option W
  deriving Repr

/-- Constructor `JoinHandle::new()`: fresh state with both slots empty. -/
def JoinState.new (T : Type u) (W : Type v) : JoinState T W :=
  { result := none, waker := none }

/-- Query `JoinHandle::is_finished`: whether the result slot holds a value. -/
def JoinState.isFinished (s : JoinState T W) : Bool :=
  s.result.isSome

/-- Future impl `<JoinHandle as Future>::poll` from `join_handle.rs`: if the result
slot holds a value, take it and return `Ready`; otherwise overwrite the
waker slot with the current waker and return `Pending`. -/
def JoinState.poll (s : JoinState T W) (w : W) :
    Poll (Except JoinError T) × JoinState T W :=
  match s.result with
  | some r => (.ready r, { s with result := none })
  | none => (.pending, { s with waker := some w })

/-- One-shot `JoinNotifier::complete` from `join_handle.rs`: install the result
into the slot, then take the stored waker and invoke it.  The second
component lists the wakers invoked by the call. -/
def JoinState.complete (s : JoinState T W) (r : Except JoinError T) :
    JoinState T W × List W :=
  let s1 : JoinState T W := { s with result := some r }
  match s1.waker with
  | some w => ({ s1 with waker := none }, [w])
  | none => (s1, [])

/-- C3: the poll of a Join Handle takes a present result and returns `Ready` with
it; with the slot empty it overwrites the waker slot with the current
waker and returns `Pending`; and `JoinNotifier::complete` installs the
result and invokes exactly the then-stored waker (once if present,
not at all otherwise). -/
theorem joinHandle_poll_complete_spec (s : JoinState T W) (w : W)
    (r : Except JoinError T) :
    (s.result = some r →
      s.poll w = (.ready r, { s with result := none })) ∧
    (s.result = none →
      s.poll w = (.pending, { s with waker := some w })) ∧
    ((s.complete r).1 = { s with result := some r, waker := none } ∨
      (s.complete r).1 = { s with result := some r }) ∧
    (s.complete r).2 = s.waker.toList := by
  refine ⟨fun h => ?_, fun h => ?_, ?_, ?_⟩
  · simp [JoinState.poll, h]
  · simp [JoinState.poll, h]
  · cases hw : s.waker with
    | some w0 => left; simp [JoinState.complete, hw]
    | none => right; simp [JoinState.complete, hw]
  · cases hw : s.waker with
    | some w0 => simp [JoinState.complete, hw]
    | none => simp [JoinState.complete, hw]

/-- Witness for `joinHandle_poll_complete_spec` at a concrete state. -/
theorem joinHandle_poll_complete_spec_witness :
    let s : JoinState Nat Nat := { result := some (.ok 7), waker := some 3 }
    s.poll 5 = (.ready (.ok 7), { s with result := none }) ∧
    (s.complete (.ok 7)).2 = [3] := by
  have h := joinHandle_poll_complete_spec
    (T := Nat) (W := Nat) { result := some (.ok 7), waker := some 3 } 5 (.ok 7)
  exact ⟨h.1 rfl, h.2.2.2⟩

/-- C10: once `JoinHandle::poll` has returned `Ready`, the result slot is
empty again: `is_finished` is false from then on, and every later poll of
the handle returns `Pending`, merely storing the new waker. -/
theorem joinHandle_poll_after_ready (s s' : JoinState T W) (w : W)
    (r : Except JoinError T) (h : s.poll w = (.ready r, s')) :
    s'.result = none ∧ s'.isFinished = false ∧
    ∀ w2 : W, s'.poll w2 = (.pending, { s' with waker := some w2 }) := by
  cases hres : s.result with
  | none => simp [JoinState.poll, hres] at h
  | some r0 =>
    simp only [JoinState.poll, hres, Prod.mk.injEq, Poll.ready.injEq] at h
    obtain ⟨rfl, rfl⟩ := h
    refine ⟨rfl, rfl, fun w2 => ?_⟩
    simp [JoinState.poll]

/-- Witness for `joinHandle_poll_after_ready` at a concrete state. -/
theorem joinHandle_poll_after_ready_witness :
    let s' : JoinState Nat Nat := { result := none, waker := none }
    s'.result = none ∧ s'.isFinished = false ∧
    ∀ w2 : Nat, s'.poll w2 = (.pending, { s' with waker := some w2 }) :=
  joinHandle_poll_after_ready
    { result := some (.ok 7), waker := none }
    { result := none, waker := none } 5 (.ok 7) (by simp [JoinState.poll])

/-! ### Tasks, the worker poll step, and the spawner -/

/-- Abstract model of the user-supplied suspendable computation boxed into a
`Task` (`BoxFuture` in `executor/task.rs`): it returns `Pending` for
`remaining` polls, then either finishes with a value or raises a panic. -/
structure UserFuture (T : Type u) where
  remaining : Nat
  outcome : Except Unit T
  deriving Repr

/-- Result of one poll step of a `UserFuture`: suspend with a successor
state, complete with a value, or panic. -/
inductive UserPoll (T : Type u) where
  | pending (rest : UserFuture T)
  | ready (v : T)
  | panicked
  deriving Repr

/-- One poll step of the abstract user computation. -/
def UserFuture.poll : UserFuture T → UserPoll T
  | ⟨0, .ok v⟩ => .ready v
  | ⟨0, .error _⟩ => .panicked
  | ⟨n + 1, o⟩ => .pending ⟨n, o⟩

/-- Model of `Task` from `executor/task.rs` together with the Join State its wrapped
future deposits into (`Spawner::spawn` builds the wrapper
`async move \x7b notifier.complete(Ok(future.await)) \x7d`): a mutexed
optional computation slot, cleared on completion or panic. -/
structure TaskState (T : Type u) (W : Type v) where
  slot : Option (UserFuture T)
  join : JoinState T W
  deriving Repr

/-- Worker step `execute_task` from `executor/worker.rs`: one worker poll step.
Returns the new task state, the wakers invoked during the step, and the
log lines emitted.  An empty slot returns at once (stale wakeup); a
`Pending` poll leaves the slot occupied and pushes nothing; `Ready` runs
the wrapper (which completes the Join State with `Ok v`) and clears the
slot; a caught panic clears the slot and logs, leaving the Join State
untouched (the notifier is dropped inside the unwound future). -/
def executeTask (t : TaskState T W) : TaskState T W × List W × List String :=
  match t.slot with
  | none => (t, [], [])
  | some f =>
    match f.poll with
    | .pending f' => ({ t with slot := some f' }, [], [])
    | .ready v =>
      let (j', woken) := t.join.complete (.ok v)
      ({ slot := none, join := j' }, woken, [])
    | .panicked => ({ t with slot := none }, [], ["task panicked!"])

/-- C4: the worker's single poll step: empty slot returns immediately with
everything unchanged; a `Pending` poll leaves the slot occupied (with the
stepped computation) and the worker re-enqueues nothing; a `Ready` poll
clears the computation slot. -/
theorem executeTask_step_spec (t : TaskState T W) :
    (t.slot = none → executeTask t = (t, [], [])) ∧
    (∀ f f', t.slot = some f → f.poll = .pending f' →
      executeTask t = ({ t with slot := some f' }, [], [])) ∧
    (∀ f v, t.slot = some f → f.poll = .ready v →
      (executeTask t).1.slot = none) := by
  refine ⟨fun h => ?_, fun f f' hs hp => ?_, fun f v hs hp => ?_⟩
  · simp [executeTask, h]
  · simp [executeTask, hs, hp]
  · simp [executeTask, hs, hp]

/-- Witness for `executeTask_step_spec` at a concrete pending task. -/
theorem executeTask_step_spec_witness :
    let t : TaskState Nat Nat := { slot := some ⟨1, .ok 4⟩, join := .new Nat Nat }
    executeTask t = ({ t with slot := some ⟨0, .ok 4⟩ }, [], []) :=
  (executeTask_step_spec { slot := some ⟨1, .ok 4⟩, join := .new Nat Nat }).2.1
    ⟨1, .ok 4⟩ ⟨0, .ok 4⟩ rfl rfl

/-- C1 counterexample: a task whose computation panics on its poll step.
After `execute_task` the Join State's result slot is still empty — no
`Panicked` error was recorded — and a subsequent poll of the Join Handle
returns `Pending`, not `Ready (Err Panicked)`. -/
theorem executeTask_panic_no_join_error :
    let t : TaskState Nat Nat := { slot := some ⟨0, .error ()⟩, join := .new Nat Nat }
    (executeTask t).1.join.result ≠ some (.error JoinError.panicked) ∧
    ((executeTask t).1.join.poll 0).1 = Poll.pending := by
  constructor
  · simp [executeTask, UserFuture.poll, JoinState.new]
  · simp [executeTask, UserFuture.poll, JoinState.new, JoinState.poll]

/-- C1 amended: if the computation panics during a poll step, the worker
clears the computation slot and emits the log line, but leaves the Join
State untouched: no `Panicked` error is recorded, so a subsequent poll of
the Join Handle (whose result slot was empty) returns `Pending` rather
than `Err(Panicked)`. -/
theorem executeTask_panic_spec (t : TaskState T W) (f : UserFuture T)
    (hs : t.slot = some f) (hp : f.poll = .panicked) :
    executeTask t = ({ t with slot := none }, [], ["task panicked!"]) ∧
    (executeTask t).1.join = t.join ∧
    (t.join.result = none →
      ∀ w : W, ((executeTask t).1.join.poll w).1 = Poll.pending) := by
  refine ⟨?_, ?_, fun hr w => ?_⟩
  · simp [executeTask, hs, hp]
  · simp [executeTask, hs, hp]
  · simp [executeTask, hs, hp, JoinState.poll, hr]

/-- Witness for `executeTask_panic_spec` at a concrete panicking task. -/
theorem executeTask_panic_spec_witness :
    let t : TaskState Nat Nat := { slot := some ⟨0, .error ()⟩, join := .new Nat Nat }
    executeTask t = ({ t with slot := none }, [], ["task panicked!"]) ∧
    ((executeTask t).1.join.poll 0).1 = Poll.pending := by
  have h := executeTask_panic_spec (W := Nat)
    { slot := some ⟨0, .error ()⟩, join := .new Nat Nat } ⟨0, .error ()⟩ rfl rfl
  exact ⟨h.1, h.2.2 rfl 0⟩

/-- Error kind `SpawnError` from `executor/spawner.rs`. -/
inductive SpawnError where
  | runtimeStopped
  deriving Repr, DecidableEq

/-- The state a `Spawner` shares with the runtime (`executor/spawner.rs`):
the global injector queue of tasks and the shutdown flag. -/
structure SpawnerState (T : Type u) (W : Type v) where
  queue : List (TaskState T W)
  is_shutdown : Bool
  deriving Repr

/-- Submission `Spawner::spawn` from `executor/spawner.rs`: refuse with
`RuntimeStopped` when the shutdown flag is set; otherwise build a fresh
Join State, wrap the computation so its value is deposited there, push
exactly one new task, and return the handle (modelled by the shared
Join State). -/
def Spawner.spawn (s : SpawnerState T W) (f : UserFuture T) :
    Except SpawnError (JoinState T W) × SpawnerState T W :=
  if s.is_shutdown then (.error .runtimeStopped, s)
  else
    let task : TaskState T W := { slot := some f, join := .new T W }
    (.ok task.join, { s with queue := s.queue ++ [task] })

/-- C2: the spawn operation fails with `RuntimeStopped` exactly when the
shutdown flag is set, pushing nothing; otherwise it pushes exactly one new
task holding the computation and a fresh Join State, returns `Ok` with the
handle over that state, and the wrapper deposits the computation's final
value into that state when it completes. -/
theorem spawner_spawn_spec (s : SpawnerState T W) (f : UserFuture T) :
    ((Spawner.spawn s f).1.isOk = false ↔ s.is_shutdown = true) ∧
    (s.is_shutdown = true → Spawner.spawn s f = (.error .runtimeStopped, s)) ∧
    (s.is_shutdown = false →
      let task : TaskState T W := { slot := some f, join := .new T W }
      Spawner.spawn s f = (.ok task.join, { s with queue := s.queue ++ [task] }) ∧
      ∀ v, f.poll = .ready v →
        (executeTask task).1.join.result = some (.ok v)) := by
  refine ⟨?_, fun h => ?_, fun h => ⟨?_, fun v hv => ?_⟩⟩
  · cases h : s.is_shutdown <;> simp [Spawner.spawn, h, Except.isOk, Except.toBool]
  · simp [Spawner.spawn, h]
  · simp [Spawner.spawn, h]
  · simp [executeTask, hv, JoinState.new, JoinState.complete]

/-- Witness for `spawner_spawn_spec` at a concrete spawner state. -/
theorem spawner_spawn_spec_witness :
    let s : SpawnerState Nat Nat := { queue := [], is_shutdown := false }
    let f : UserFuture Nat := ⟨0, .ok 42⟩
    let task : TaskState Nat Nat := { slot := some f, join := .new Nat Nat }
    Spawner.spawn s f = (.ok task.join, { s with queue := [task] }) ∧
    (executeTask task).1.join.result = some (.ok 42) := by
  have h := (spawner_spawn_spec (W := Nat)
    { queue := [], is_shutdown := false } ⟨0, .ok 42⟩).2.2 rfl
  exact ⟨h.1, h.2 42 rfl⟩

/-! ### Timer registry and sleep future -/

/-- Deadline-ordered multimap `TimerRegistry` from `timer/registry.rs`:
the `BTreeMap<Instant, Vec<Waker>>` is modelled as an association list
sorted strictly by deadline (instants are `Nat`). -/
structure TimerRegistry (W : Type v) where
  timers : List (Nat × List W)
  deriving Repr

/-- Insertion into the sorted association list, mirroring
`timers.entry(deadline).or_default().push(waker)`: an existing key gets
the waker appended to its vector; a new key is placed in order. -/
def insertTimer (d : Nat) (w : W) : List (Nat × List W) → List (Nat × List W)
  | [] => [(d, [w])]
  | (k, ws) :: rest =>
    if d < k then (d, [w]) :: (k, ws) :: rest
    else if d = k then (k, ws ++ [w]) :: rest
    else (k, ws) :: insertTimer d w rest

/-- Registration `TimerRegistry::register`. -/
def TimerRegistry.register (reg : TimerRegistry W) (deadline : Nat) (w : W) :
    TimerRegistry W :=
  ⟨insertTimer deadline w reg.timers⟩

/-- Peek `TimerRegistry::next_deadline`: the minimum key. -/
def TimerRegistry.nextDeadline (reg : TimerRegistry W) : Option Nat :=
  reg.timers.head?.map Prod.fst

/-- Drain `TimerRegistry::pop_ready_wakers`: `split_off(&(now + 1ns))`
keeps the keys `≥ now + 1` as the pending part, the prefix of keys
`< now + 1` is drained and its vectors are flattened in key order. -/
def TimerRegistry.popReadyWakers (reg : TimerRegistry W) (now : Nat) :
    List W × TimerRegistry W :=
  let pending := reg.timers.dropWhile (fun e => decide (e.1 < now + 1))
  let ready := reg.timers.takeWhile (fun e => decide (e.1 < now + 1))
  ((ready.map Prod.snd).flatten, ⟨pending⟩)

/-- Well-formedness of the `BTreeMap` model: keys strictly ascending. -/
def TimerRegistry.SortedKeys (reg : TimerRegistry W) : Prop :=
  reg.timers.Pairwise (fun a b => a.1 < b.1)

/-- On a strictly-sorted association list, the take/drop split at
`now + 1` coincides with filtering by `≤ now` and by `> now`. -/
theorem takeWhile_dropWhile_split_sorted (now : Nat) :
    ∀ l : List (Nat × List W), l.Pairwise (fun a b => a.1 < b.1) →
      l.takeWhile (fun e => decide (e.1 < now + 1)) =
        l.filter (fun e => decide (e.1 ≤ now)) ∧
      l.dropWhile (fun e => decide (e.1 < now + 1)) =
        l.filter (fun e => decide (now < e.1)) := by
  intro l
  induction l with
  | nil => intro _; exact ⟨rfl, rfl⟩
  | cons e rest ih =>
    intro hp
    rw [List.pairwise_cons] at hp
    obtain ⟨hall, hrest⟩ := hp
    obtain ⟨ihTake, ihDrop⟩ := ih hrest
    by_cases hk : e.1 ≤ now
    · have hb : e.1 < now + 1 := by omega
      constructor
      · simp only [List.takeWhile_cons, List.filter_cons, decide_eq_true_eq]
        rw [if_pos hb, if_pos hk, ihTake]
      · simp only [List.dropWhile_cons, List.filter_cons, decide_eq_true_eq]
        rw [if_pos hb, if_neg (by omega : ¬ now < e.1), ihDrop]
    · push_neg at hk
      have hb : ¬ e.1 < now + 1 := by omega
      constructor
      · simp only [List.takeWhile_cons, List.filter_cons, decide_eq_true_eq]
        rw [if_neg hb, if_neg (by omega : ¬ e.1 ≤ now)]
        refine (List.filter_eq_nil_iff.mpr fun a ha => ?_).symm
        have := hall a ha
        simp only [decide_eq_true_eq]
        omega
      · simp only [List.dropWhile_cons, List.filter_cons, decide_eq_true_eq]
        rw [if_neg hb, if_pos hk]
        refine congrArg (e :: ·) (List.filter_eq_self.mpr fun a ha => ?_).symm
        have := hall a ha
        simp only [decide_eq_true_eq]
        omega

/-- C5: on a well-formed registry, `pop_ready_wakers(now)` returns exactly
the wakers whose deadline is `≤ now`, flattened in ascending deadline
order (the surviving keys of the drained prefix are strictly ascending),
and leaves behind exactly the entries with deadline `> now`. -/
theorem timerRegistry_popReadyWakers_spec (reg : TimerRegistry W) (now : Nat)
    (hs : reg.SortedKeys) :
    (reg.popReadyWakers now).1 =
      ((reg.timers.filter (fun e => decide (e.1 ≤ now))).map Prod.snd).flatten ∧
    (reg.popReadyWakers now).2.timers =
      reg.timers.filter (fun e => decide (now < e.1)) ∧
    (reg.timers.filter (fun e => decide (e.1 ≤ now))).Pairwise
      (fun a b => a.1 < b.1) := by
  obtain ⟨hTake, hDrop⟩ := takeWhile_dropWhile_split_sorted now reg.timers hs
  exact ⟨by simp [TimerRegistry.popReadyWakers, hTake],
    by simp [TimerRegistry.popReadyWakers, hDrop],
    List.Pairwise.filter _ hs⟩

/-- Witness for `timerRegistry_popReadyWakers_spec` on a concrete
registry built by `register`, popped at time 3. -/
theorem timerRegistry_popReadyWakers_spec_witness :
    let reg : TimerRegistry Nat :=
      (((TimerRegistry.mk []).register 5 50).register 2 20).register 3 30
    (reg.popReadyWakers 3).1 = [20, 30] ∧
    (reg.popReadyWakers 3).2.timers = [(5, [50])] := by
  have h := timerRegistry_popReadyWakers_spec
    ((((TimerRegistry.mk []).register 5 50).register 2 20).register 3 30) 3
    (by simp [TimerRegistry.register, insertTimer, TimerRegistry.SortedKeys])
  refine ⟨?_, ?_⟩
  · rw [h.1]; rfl
  · rw [h.2.1]; rfl

/-- Sleep future `SleepFuture` from `timer/sleep.rs`: an absolute
deadline and the reactor-registration flag. -/
structure SleepFuture where
  deadline : Nat
  is_registered : Bool
  deriving Repr, DecidableEq

/-- Readiness check `SleepFuture::is_ready`: `Instant::now() >= deadline`. -/
def SleepFuture.isReady (s : SleepFuture) (now : Nat) : Bool :=
  decide (s.deadline ≤ now)

/-- Future impl of `SleepFuture::poll` from `timer/sleep.rs`: ready when
the deadline has passed; otherwise `ensure_registered` submits
`(deadline, waker)` to the reactor on the first pending poll only, and
the poll returns `Pending`.  The third component lists the registrations
submitted to the reactor by this poll. -/
def SleepFuture.poll (s : SleepFuture) (now : Nat) (w : W) :
    Poll Unit × SleepFuture × List (Nat × W) :=
  if s.isReady now then (.ready (), s, [])
  else if s.is_registered then (.pending, s, [])
  else (.pending, { s with is_registered := true }, [(s.deadline, w)])

/-- Constructor `sleep(duration)` from `timer/sleep.rs`: deadline is the
creation instant plus the duration; not yet registered. -/
def sleep (now d : Nat) : SleepFuture :=
  { deadline := now + d, is_registered := false }

/-- C6: a sleep-future poll is `Ready` exactly when now has reached the
deadline; below the deadline the first poll registers the waker with the
reactor and marks the flag, later polls register nothing; and a future
created by `sleep(d)` at time `t0` can only be observed `Ready` at a time
`T` with `T - t0 ≥ d`. -/
theorem sleepFuture_poll_spec (s : SleepFuture) (now : Nat) (w : W) :
    ((s.poll now w).1 = Poll.ready () ↔ s.deadline ≤ now) ∧
    (s.is_registered = true → (s.poll now w).2.2 = []) ∧
    (now < s.deadline → s.is_registered = false →
      s.poll now w = (.pending, { s with is_registered := true }, [(s.deadline, w)])) ∧
    (now < s.deadline → s.is_registered = true →
      s.poll now w = (.pending, s, [])) ∧
    (∀ t0 d T : Nat, ∀ w' : W, ((sleep t0 d).poll T w').1 = Poll.ready () →
      t0 + d ≤ T ∧ d ≤ T - t0) := by
  refine ⟨?_, fun hr => ?_, fun hlt hr => ?_, fun hlt hr => ?_, fun t0 d T w' h => ?_⟩
  · by_cases hd : s.deadline ≤ now
    · simp [SleepFuture.poll, SleepFuture.isReady, hd]
    · cases hreg : s.is_registered <;>
        simp [SleepFuture.poll, SleepFuture.isReady, hd, hreg]
  · by_cases hd : s.deadline ≤ now <;>
      simp [SleepFuture.poll, SleepFuture.isReady, hd, hr]
  · simp [SleepFuture.poll, SleepFuture.isReady, Nat.not_le.mpr hlt, hr]
  · simp [SleepFuture.poll, SleepFuture.isReady, Nat.not_le.mpr hlt, hr]
  · by_cases hd : t0 + d ≤ T
    · exact ⟨hd, by omega⟩
    · exfalso
      simp [SleepFuture.poll, SleepFuture.isReady, sleep, hd] at h

/-- Witness for `sleepFuture_poll_spec` at a concrete sleep future. -/
theorem sleepFuture_poll_spec_witness :
    let s : SleepFuture := sleep 10 5
    s.poll 12 (0 : Nat) = (.pending, { s with is_registered := true }, [(15, 0)]) ∧
    ((s.poll 15 (0 : Nat)).1 = Poll.ready () ↔ (15 : Nat) ≤ 15) := by
  have h := sleepFuture_poll_spec (sleep 10 5) 12 (0 : Nat)
  have h2 := sleepFuture_poll_spec (sleep 10 5) 15 (0 : Nat)
  exact ⟨h.2.2.1 (by decide) rfl, h2.1⟩

/-! ### Cancellation token -/

/-- Shared state `CancellationState` from `cancellation.rs`: an atomic
cancelled flag and a mutexed vector of wakers awaiting cancellation. -/
structure CancellationState (W : Type v) where
  is_cancelled : Bool
  wakers : List W
  deriving Repr

/-- Constructor state of `CancellationToken::new`. -/
def CancellationState.new (W : Type v) : CancellationState W :=
  { is_cancelled := false, wakers := [] }

/-- Operation `CancellationToken::cancel` on the shared state: store
`true` into the flag, take the whole waker vector (`mem::take`) and
invoke each taken waker.  The second component lists the invoked wakers. -/
def CancellationState.cancel (st : CancellationState W) :
    CancellationState W × List W :=
  ({ is_cancelled := true, wakers := [] }, st.wakers)

/-- Query `CancellationToken::is_cancelled` on the shared state. -/
def CancellationState.isCancelled (st : CancellationState W) : Bool :=
  st.is_cancelled

/-- Future impl of `CancelledFuture::poll` from `cancellation.rs`,
sequentialized: read the flag; if set, ready at once.  Otherwise a
concurrent `cancel` may be interleaved before the waker push (the
`interleaved` parameter); push the current waker, then re-read the flag
and return ready exactly when it is now set.  The third component lists
the wakers invoked during the step (by the interleaved cancel). -/
def CancelledFuture.poll (st : CancellationState W) (interleaved : Bool)
    (w : W) : Poll Unit × CancellationState W × List W :=
  if st.is_cancelled then (.ready (), st, [])
  else
    let step := if interleaved then st.cancel else (st, [])
    let st2 : CancellationState W := { step.1 with wakers := step.1.wakers ++ [w] }
    if st2.is_cancelled then (.ready (), st2, step.2) else (.pending, st2, step.2)

/-- C7: `CancelledFuture::poll` is ready at once when the flag is already
set (touching nothing); otherwise it appends the current waker to the
collection and is ready exactly when the flag flipped between the first
check and the append, pending otherwise. -/
theorem cancelledFuture_poll_spec (st : CancellationState W)
    (interleaved : Bool) (w : W) :
    (st.is_cancelled = true →
      CancelledFuture.poll st interleaved w = (.ready (), st, [])) ∧
    (st.is_cancelled = false →
      (CancelledFuture.poll st interleaved w).2.1.wakers =
        (if interleaved then ([] : List W) else st.wakers) ++ [w] ∧
      ((CancelledFuture.poll st interleaved w).1 = Poll.ready () ↔
        interleaved = true)) := by
  refine ⟨fun h => ?_, fun h => ⟨?_, ?_⟩⟩
  · simp [CancelledFuture.poll, h]
  · cases interleaved <;>
      simp [CancelledFuture.poll, CancellationState.cancel, h]
  · cases interleaved <;>
      simp [CancelledFuture.poll, CancellationState.cancel, h]

/-- Witness for `cancelledFuture_poll_spec` on a fresh state with a
cancel interleaved between the flag check and the waker push. -/
theorem cancelledFuture_poll_spec_witness :
    (CancelledFuture.poll (CancellationState.new Nat) true 9).2.1.wakers = [9] ∧
    ((CancelledFuture.poll (CancellationState.new Nat) true 9).1 =
      Poll.ready () ↔ True) := by
  have h := (cancelledFuture_poll_spec (CancellationState.new Nat) true 9).2 rfl
  exact ⟨h.1, by rw [h.2]; simp⟩

/-- Mutating operations on a shared cancellation state appearing in
`cancellation.rs`: a `cancel` call, or a poll of a derived
`CancelledFuture` (possibly with a concurrent cancel interleaved). -/
inductive TokenOp (W : Type v) where
  | cancel
  | futurePoll (interleaved : Bool) (w : W)

/-- Effect of one operation on the shared cancellation state. -/
def TokenOp.apply : TokenOp W → CancellationState W → CancellationState W
  | .cancel, st => st.cancel.1
  | .futurePoll itl w, st => (CancelledFuture.poll st itl w).2.1

/-- Effect of a sequence of operations on the shared state. -/
def runOps (ops : List (TokenOp W)) (st : CancellationState W) :
    CancellationState W :=
  ops.foldl (fun s op => op.apply s) st

/-- Token `CancellationToken` from `cancellation.rs`: a shared reference
to one cancellation state (the `Arc` is modelled by the state value the
token designates). -/
structure CancellationToken (W : Type v) where
  inner : CancellationState W
  deriving Repr

/-- Query `CancellationToken::is_cancelled`. -/
def CancellationToken.isCancelled (t : CancellationToken W) : Bool :=
  t.inner.is_cancelled

/-- Derivation `CancellationToken::child_token`: shares the same state. -/
def CancellationToken.child_token (t : CancellationToken W) :
    CancellationToken W :=
  { inner := t.inner }

/-- Clone impl for `CancellationToken`: shares the same state. -/
def CancellationToken.clone (t : CancellationToken W) : CancellationToken W :=
  { inner := t.inner }

/-- Accessor `CancellationToken::cancelled`: the derived future shares
the token's state, which is what its poll reads. -/
def CancellationToken.cancelled (t : CancellationToken W) :
    CancellationState W :=
  t.inner

/-- C8: the cancelled flag is monotonic: no single operation and no
sequence of operations from `cancellation.rs` ever clears it, so once a
state observes `is_cancelled = true`, every token sharing the resulting
state still observes `true`. -/
theorem cancellation_flag_monotonic (ops : List (TokenOp W))
    (st : CancellationState W) (h : st.is_cancelled = true) :
    (runOps ops st).is_cancelled = true ∧
    (∀ (op : TokenOp W) (st' : CancellationState W),
      st'.is_cancelled = true → (op.apply st').is_cancelled = true) ∧
    (∀ t : CancellationToken W, t.inner = runOps ops st →
      t.isCancelled = true) := by
  have step : ∀ (op : TokenOp W) (st' : CancellationState W),
      st'.is_cancelled = true → (op.apply st').is_cancelled = true := by
    intro op st' h'
    cases op with
    | cancel => rfl
    | futurePoll itl w => simp [TokenOp.apply, CancelledFuture.poll, h']
  have main : ∀ (l : List (TokenOp W)) (st' : CancellationState W),
      st'.is_cancelled = true → (runOps l st').is_cancelled = true := by
    intro l
    induction l with
    | nil => intro st' h'; exact h'
    | cons op rest ih => intro st' h'; exact ih _ (step op st' h')
  refine ⟨main ops st h, step, fun t ht => ?_⟩
  show t.inner.is_cancelled = true
  rw [ht]
  exact main ops st h

/-- Witness for `cancellation_flag_monotonic`: a cancelled state stays
cancelled across a further cancel and a future poll. -/
theorem cancellation_flag_monotonic_witness :
    (runOps [TokenOp.cancel, TokenOp.futurePoll false 4]
      ((CancellationState.new Nat).cancel.1)).is_cancelled = true :=
  (cancellation_flag_monotonic [TokenOp.cancel, TokenOp.futurePoll false 4]
    ((CancellationState.new Nat).cancel.1) rfl).1

/-- C9: `child_token` and `clone` agree: they produce the same token
sharing the same underlying state, so the flag query, the derived
future's state, and the future's poll behaviour coincide. -/
theorem childToken_eq_clone (t : CancellationToken W) :
    t.child_token = t.clone ∧
    t.child_token.inner = t.inner ∧
    t.child_token.isCancelled = t.clone.isCancelled ∧
    t.child_token.cancelled = t.clone.cancelled ∧
    (∀ (itl : Bool) (w : W),
      CancelledFuture.poll t.child_token.cancelled itl w =
        CancelledFuture.poll t.clone.cancelled itl w) :=
  ⟨rfl, rfl, rfl, rfl, fun _ _ => rfl⟩

end RustRuntime
